import Mathlib

/-!
# wswd: working directories for i3 workspaces

A shallow embedding of `main.go` (command `wswd`) and the properties of its
record store, its reconciliation sweep (`clean`) and its dispatch path (`exec`).

Modelling conventions

* Go `string` and `[]byte` are both byte sequences; they are modelled by `String`,
  and the conversions `[]byte(s)` / `string(b)` are the identity.
* `i3.WorkspaceID` is a signed 64-bit integer; ids are modelled by `Int`
  (every statement below holds for all integers, so in particular for that range).
* Every call into the operating system or the window manager goes through a
  record `Sys σ` of environment operations over an arbitrary state type `σ`.
  The embedded functions thread a `World σ`: the environment state together with
  the log of the calls made so far, in order.
* `SimFS` is one concrete environment (an in-memory file system with injectable
  removal failures) on which the embedded functions can be evaluated.
-/

namespace Wswd

/-! ## Errors -/

/-- Error numbers reported by the operating system (`syscall.Errno`). -/
abbrev Errno := Nat

def ENOENT : Errno := 2
def EACCES : Errno := 13
def ENOTDIR : Errno := 20
def EISDIR : Errno := 21
def ENOTEMPTY : Errno := 39

/-- Go `error` values that occur in the program.
`errno` is a bare `syscall.Errno`, `pathError` is `*fs.PathError` carrying an errno, `execError` is `*exec.Error`,
`errorString` is the result of `errors.New` or of `fmt.Errorf` without `%w`,
`wrapError` is the result of `fmt.Errorf` with one `%w` operand, and
`joinError` is the `joinError` type of `main.go`. -/
inductive GoError where
  | errno (e : Errno)
  | pathError (op path : String) (en : Errno)
  | execError (name : String) (err : GoError)
  | errorString (msg : String)
  | wrapError (msg : String) (err : GoError)
  | joinError (errs : List GoError)

/-- Text of `syscall.Errno.Error` for the error numbers used here. -/
def errnoMsg (e : Errno) : String :=
  if e = 2 then "no such file or directory"
  else if e = 13 then "permission denied"
  else if e = 20 then "not a directory"
  else if e = 21 then "is a directory"
  else if e = 39 then "directory not empty"
  else "errno " ++ toString e

mutual
/-- The `Error() string` method. For `joinError` this is `(*joinError).Error`. -/
def GoError.Error : GoError → String
  | .errno e => errnoMsg e
  | .pathError op path en => op ++ " " ++ path ++ ": " ++ errnoMsg en
  | .execError name err => "exec: " ++ name ++ ": " ++ err.Error
  | .errorString msg => msg
  | .wrapError msg _ => msg
  | .joinError errs => GoError.joinLoop "" 0 errs
/-- The loop of `(*joinError).Error`: `b` is the buffer, `i` the index of the next error. -/
def GoError.joinLoop (b : String) (i : Nat) : List GoError → String
  | [] => b
  | err :: rest =>
    GoError.joinLoop ((if i > 0 then b ++ "\n" else b) ++ err.Error) (i + 1) rest
end

mutual
/-- Go `errors.Is(err, fs.ErrNotExist)`: walks the `Unwrap` tree of `err`; an errno matches
`fs.ErrNotExist` exactly when it is `ENOENT`. -/
def GoError.isNotExist : GoError → Bool
  | .errno e => e == ENOENT
  | .pathError _ _ en => en == ENOENT
  | .execError _ err => err.isNotExist
  | .errorString _ => false
  | .wrapError _ err => err.isNotExist
  | .joinError errs => GoError.anyNotExist errs
/-- Some error of the list matches `fs.ErrNotExist`. -/
def GoError.anyNotExist : List GoError → Bool
  | [] => false
  | err :: rest => err.isNotExist || GoError.anyNotExist rest
end

/-- Go `errors.Is(err, fs.ErrNotExist)` on a possibly nil error. -/
def errorsIsNotExist : Option GoError → Bool
  | none => false
  | some e => e.isNotExist

/-- Go `(*joinError).Unwrap`. -/
def GoError.Unwrap : GoError → List GoError
  | .joinError errs => errs
  | _ => []

/-- Function `errorsJoin` of `main.go`: count the non-nil errors, return nil when there are
none, otherwise a `joinError` holding the non-nil errors in their order. -/
def errorsJoin (errs : List (Option GoError)) : Option GoError :=
  let n := errs.foldl (fun n err => if err.isSome then n + 1 else n) 0
  if n = 0 then none
  else
    some (GoError.joinError
      (errs.foldl (fun acc err => match err with
        | some e => acc ++ [e]
        | none => acc) []))

/-! ## Record names -/

/-- Digit table `ldigits` of package `fmt`. -/
def ldigits : List Char := "0123456789abcdefx".data

def hexDigit (d : Nat) : Char := ldigits.getD d '0'

/-- The base-16 loop of `fmt.(*fmt).fmtInteger`: while `u ≥ 16` emit the digit of the low
four bits in front of the buffer and shift; then emit the last digit. The first argument
bounds the number of iterations; `fmtHex` passes a bound that is never reached. -/
def fmtHexLoop : Nat → Nat → List Char → List Char
  | 0, u, buf => hexDigit u :: buf
  | fuel + 1, u, buf =>
    if 16 ≤ u then fmtHexLoop fuel (u / 16) (hexDigit (u % 16) :: buf)
    else hexDigit u :: buf

/-- Verb `%x` of `fmt` on a signed integer: the lowercase hexadecimal digits of the
magnitude, preceded by `-` when the value is negative. -/
def fmtHex (v : Int) : String :=
  let u := v.natAbs
  let ds := fmtHexLoop u u []
  String.mk (if v < 0 then '-' :: ds else ds)

/-- The expression `fmt.Sprintf("id-%x", id)` used by `run`, `runSet`, `runUnset`
and `runClean`. -/
def recordName (id : Int) : String := "id-" ++ fmtHex id

/-- Value of a hexadecimal digit character (inverse of `hexDigit` on `0..15`). -/
def hexVal (c : Char) : Nat := ldigits.indexOf c

/-- Value of a string of hexadecimal digits, most significant first. -/
def hexValue (cs : List Char) : Nat := cs.foldl (fun v c => 16 * v + hexVal c) 0

/-- Reads back the integer from the text produced by `%x`. -/
def parseHex (cs : List Char) : Int :=
  match cs with
  | '-' :: ds => - (hexValue ds : Int)
  | ds => (hexValue ds : Int)

/-- Go `filepath.Join(dir, name)` for a cleaned, non-root directory path `dir` (as returned
by `cfgDir`) and a single path component `name`: the two joined by the separator. -/
def filepathJoin (dir name : String) : String := dir ++ "/" ++ name

/-! ## The set type -/

/-- Type `set[E]` of `main.go` (a map from `E` to the empty struct), as the list of its keys. -/
def set (E : Type) := List E

def makeSet {E : Type} (elements : List E) : set E :=
  elements.foldl (fun s e => e :: s) []

def set.Add {E : Type} (s : set E) (e : E) : set E := e :: s

def set.Contains {E : Type} [DecidableEq E] (s : set E) (e : E) : Bool := List.elem e s

def set.Delete {E : Type} [DecidableEq E] (s : set E) (e : E) : set E :=
  List.filter (fun x => decide (x ≠ e)) s

/-! ## Environment -/

/-- The fields of `i3.Workspace` that the program reads. -/
structure Workspace where
  ID : Int
  Focused : Bool

/-- Type `config` of `main.go`. -/
structure config where
  dir : String
  cur : Workspace
  workspaces : List Workspace

/-- One call made to the environment. A removal is logged with its result. -/
inductive Call where
  | getWorkspaces
  | userCacheDir
  | mkdirAll (path : String) (perm : Nat)
  | lookPath (file : String)
  | readFile (name : String)
  | chdir (dir : String)
  | exec (argv0 : String) (argv : List String) (envv : List String)
  | getwd
  | writeFile (name : String) (data : String) (perm : Nat)
  | remove (name : String) (res : Option GoError)
  | readDir (name : String)

/-- The operations of the operating system and of the window manager used by the program,
over an environment state `σ`. A result `none` of type `Option GoError` is a nil error.
`exec` returns `none` when the process image has been replaced and the error of `execve`
otherwise. -/
structure Sys (σ : Type) where
  getWorkspaces : σ → Except GoError (List Workspace)
  userCacheDir : σ → Except GoError String
  mkdirAll : String → Nat → σ → Option GoError × σ
  lookPath : String → σ → Except GoError String
  readFile : String → σ → Except GoError String
  chdir : String → σ → Option GoError × σ
  environ : σ → List String
  exec : String → List String → List String → σ → Option GoError
  getwd : σ → Except GoError String
  writeFile : String → String → Nat → σ → Option GoError × σ
  remove : String → σ → Option GoError × σ
  readDir : String → σ → Except GoError (List String)

/-- Environment state and the calls made so far, oldest first. -/
structure World (σ : Type) where
  st : σ
  log : List Call

/-- How an invocation of `run` ends: it returns an error value (nil for success), the
process image is replaced by another program, or the Go runtime panics. -/
inductive Outcome where
  | returned (err : Option GoError)
  | replaced (argv0 : String) (argv : List String) (envv : List String)
  | panicked (msg : String)

variable {σ : Type}

def i3GetWorkspaces (sys : Sys σ) (w : World σ) : Except GoError (List Workspace) × World σ :=
  (sys.getWorkspaces w.st, ⟨w.st, w.log ++ [Call.getWorkspaces]⟩)

def osUserCacheDir (sys : Sys σ) (w : World σ) : Except GoError String × World σ :=
  (sys.userCacheDir w.st, ⟨w.st, w.log ++ [Call.userCacheDir]⟩)

def osMkdirAll (sys : Sys σ) (path : String) (perm : Nat) (w : World σ) :
    Option GoError × World σ :=
  let r := sys.mkdirAll path perm w.st
  (r.1, ⟨r.2, w.log ++ [Call.mkdirAll path perm]⟩)

def execLookPath (sys : Sys σ) (file : String) (w : World σ) :
    Except GoError String × World σ :=
  (sys.lookPath file w.st, ⟨w.st, w.log ++ [Call.lookPath file]⟩)

def osReadFile (sys : Sys σ) (name : String) (w : World σ) :
    Except GoError String × World σ :=
  (sys.readFile name w.st, ⟨w.st, w.log ++ [Call.readFile name]⟩)

def osChdir (sys : Sys σ) (dir : String) (w : World σ) : Option GoError × World σ :=
  let r := sys.chdir dir w.st
  (r.1, ⟨r.2, w.log ++ [Call.chdir dir]⟩)

def osGetwd (sys : Sys σ) (w : World σ) : Except GoError String × World σ :=
  (sys.getwd w.st, ⟨w.st, w.log ++ [Call.getwd]⟩)

def renameioWriteFile (sys : Sys σ) (name data : String) (perm : Nat) (w : World σ) :
    Option GoError × World σ :=
  let r := sys.writeFile name data perm w.st
  (r.1, ⟨r.2, w.log ++ [Call.writeFile name data perm]⟩)

def osRemove (sys : Sys σ) (name : String) (w : World σ) : Option GoError × World σ :=
  let r := sys.remove name w.st
  (r.1, ⟨r.2, w.log ++ [Call.remove name r.1]⟩)

def osReadDir (sys : Sys σ) (name : String) (w : World σ) :
    Except GoError (List String) × World σ :=
  (sys.readDir name w.st, ⟨w.st, w.log ++ [Call.readDir name]⟩)

/-- Go `unix.Exec(argv0, argv, envv)`: on success the process image is replaced,
otherwise the error is returned to the caller. -/
def unixExec (sys : Sys σ) (argv0 : String) (argv envv : List String) (w : World σ) :
    Outcome × World σ :=
  let w1 : World σ := ⟨w.st, w.log ++ [Call.exec argv0 argv envv]⟩
  match sys.exec argv0 argv envv w.st with
  | none => (Outcome.replaced argv0 argv envv, w1)
  | some err => (Outcome.returned (some err), w1)

/-! ## The program -/

/-- Function `runSet` of `main.go`. -/
def runSet (sys : Sys σ) (c : config) (w : World σ) : Option GoError × World σ :=
  match osGetwd sys w with
  | (.error err, w) => (some err, w)
  | (.ok wd, w) =>
    let fname := filepathJoin c.dir (recordName c.cur.ID)
    renameioWriteFile sys fname wd 0o600 w

/-- Function `runUnset` of `main.go`. -/
def runUnset (sys : Sys σ) (c : config) (w : World σ) : Option GoError × World σ :=
  let fname := filepathJoin c.dir (recordName c.cur.ID)
  let r := osRemove sys fname w
  let err := if errorsIsNotExist r.1 then none else r.1
  (err, r.2)

/-- The loop `for _, de := range des` of `runClean`, over the entry names; the state of
the loop is the flag `empty`, the slice `errs` and the world. -/
def cleanLoop (sys : Sys σ) (dir : String) (allocated : set String) :
    List String → Bool × List (Option GoError) × World σ →
    Bool × List (Option GoError) × World σ
  | [], acc => acc
  | n :: des, (empty, errs, w) =>
    if allocated.Contains n then
      cleanLoop sys dir allocated des (false, errs, w)
    else
      let r := osRemove sys (filepathJoin dir n) w
      cleanLoop sys dir allocated des (empty, errs ++ [r.1], r.2)

/-- The set `allocated` built by `runClean` from the live workspaces. -/
def allocatedOf (workspaces : List Workspace) : set String :=
  workspaces.foldl (fun s ws => s.Add (recordName ws.ID)) (makeSet [])

/-- Function `runClean` of `main.go`. -/
def runClean (sys : Sys σ) (c : config) (w : World σ) : Option GoError × World σ :=
  match osReadDir sys c.dir w with
  | (.error err, w) => (some err, w)
  | (.ok des, w) =>
    let allocated := allocatedOf c.workspaces
    match cleanLoop sys c.dir allocated des (true, [], w) with
    | (empty, errs, w) =>
      if empty then
        let r := osRemove sys c.dir w
        (errorsJoin (errs ++ [r.1]), r.2)
      else
        (errorsJoin errs, w)

/-- Function `cfgDir` of `main.go`. -/
def cfgDir (sys : Sys σ) (w : World σ) : Except GoError String × World σ :=
  match osUserCacheDir sys w with
  | (.error err, w) => (.error err, w)
  | (.ok ucd, w) =>
    let cfg := filepathJoin ucd "wswd"
    match osMkdirAll sys cfg 0o700 w with
    | (some err, w) => (.error err, w)
    | (none, w) => (.ok cfg, w)

/-- The loop of `run` that selects the focused workspace: the last one with the flag set. -/
def focusedOf (wss : List Workspace) : Option Workspace :=
  wss.foldl (fun cur ws => if ws.Focused then some ws else cur) none

/-- Go `%q` on a string without characters that need escaping. -/
def quote (s : String) : String := "\"" ++ s ++ "\""

/-- Lines 82 to 97 of `run`, reached from `case "exec"` with `args` already advanced past
the subcommand: resolve the program, read the record of the focused workspace, change
directory when there is one, and replace the process image. -/
def runExec (sys : Sys σ) (c : config) (args : List String) (w : World σ) :
    Outcome × World σ :=
  match args with
  | [] => (Outcome.panicked "index out of range [0] with length 0", w)
  | arg0 :: rest =>
    match execLookPath sys arg0 w with
    | (.error err, w) => (Outcome.returned (some err), w)
    | (.ok cmd, w) =>
      let fname := filepathJoin c.dir (recordName c.cur.ID)
      match osReadFile sys fname w with
      | (.ok buf, w) =>
        match osChdir sys buf w with
        | (some err, w) => (Outcome.returned (some err), w)
        | (none, w) => unixExec sys cmd rest (sys.environ w.st) w
      | (.error err, w) =>
        if !(err.isNotExist) then (Outcome.returned (some err), w)
        else unixExec sys cmd rest (sys.environ w.st) w

/-- Function `run` of `main.go`. `argv0` is `os.Args[0]` and `args` is `flag.Args()`,
the command line after `flag.Parse`. -/
def run (sys : Sys σ) (argv0 : String) (args : List String) (w : World σ) :
    Outcome × World σ :=
  match args with
  | [] => (Outcome.returned (some (GoError.errorString
      ("usage: " ++ argv0 ++ " [-set] <cmd...>"))), w)
  | sub :: tail =>
    match i3GetWorkspaces sys w with
    | (.error err, w) =>
      (Outcome.returned (some (GoError.wrapError
        ("could not get workspaces: " ++ err.Error) err)), w)
    | (.ok wss, w) =>
      match focusedOf wss with
      | none => (Outcome.returned (some (GoError.errorString "no workspace is focused")), w)
      | some cur =>
        match cfgDir sys w with
        | (.error err, w) =>
          (Outcome.returned (some (GoError.wrapError
            ("can not determine config dir: " ++ err.Error) err)), w)
        | (.ok dir, w) =>
          let c : config := { dir := dir, cur := cur, workspaces := wss }
          if sub = "exec" then runExec sys c tail w
          else if sub = "clean" then
            let r := runClean sys c w
            (Outcome.returned r.1, r.2)
          else if sub = "set" then
            let r := runSet sys c w
            (Outcome.returned r.1, r.2)
          else if sub = "unset" then
            let r := runUnset sys c w
            (Outcome.returned r.1, r.2)
          else
            (Outcome.returned (some (GoError.errorString
              ("unknown subcommand " ++ quote sub))), w)

/-! ## Observations on the call log -/

/-- The calls made between an earlier world and a later one. -/
def callsSince (before after : World σ) : List Call :=
  after.log.drop before.log.length

/-- The paths of the removals in a list of calls, in order. -/
def removedNames : List Call → List String
  | [] => []
  | Call.remove name _ :: rest => name :: removedNames rest
  | _ :: rest => removedNames rest

/-- The results of the removals in a list of calls, in order. -/
def removeResults : List Call → List (Option GoError)
  | [] => []
  | Call.remove _ res :: rest => res :: removeResults rest
  | _ :: rest => removeResults rest

/-- The errors of the failed removals in a list of calls, in order. -/
def removeFailures (calls : List Call) : List GoError :=
  (removeResults calls).reduceOption

/-- The names of the live records: the set `allocated` of `runClean` as a list. -/
def liveNames (workspaces : List Workspace) : List String :=
  workspaces.map (fun ws => recordName ws.ID)

/-- The listed entries that `clean` is to delete: those whose name is no live record name. -/
def staleEntries (workspaces : List Workspace) (des : List String) : List String :=
  des.filter (fun n => decide (n ∉ liveNames workspaces))

/-! ## A concrete environment -/

/-- A node of the simulated file system. -/
inductive Node where
  | file (content : String)
  | dir

/-- An in-memory environment: the file-system nodes by full path, the working directory,
the user cache directory, the programs on the search path with their resolved paths, the
process environment, the workspaces reported by the window manager, and removal
failures to inject (`ENOENT` stands for an entry that another process removed after
the directory was listed). -/
structure SimFS where
  nodes : List (String × Node)
  cwd : String
  cache : String
  bins : List (String × String)
  env : List String
  wss : List Workspace
  faults : List (String × Errno)

/-- Remainder of the second list after the first, when the first starts the second. -/
def dropInitial : List Char → List Char → Option (List Char)
  | [], rest => some rest
  | _ :: _, [] => none
  | a :: as, b :: bs => if a = b then dropInitial as bs else none

/-- Name of `path` as an entry of directory `dir`, when it is one. -/
def entryName (dir path : String) : Option String :=
  match dropInitial (dir.data ++ ['/']) path.data with
  | none => none
  | some rest => if rest ≠ [] ∧ '/' ∉ rest then some (String.mk rest) else none

/-- Directory part of a path: everything before the last separator. -/
def parentOf (path : String) : String :=
  String.mk ((path.data.reverse.dropWhile (fun c => c != '/')).drop 1).reverse

def SimFS.erase (fs : SimFS) (path : String) : SimFS :=
  { fs with nodes := fs.nodes.filter (fun n => n.1 != path) }

def SimFS.entries (fs : SimFS) (dir : String) : List String :=
  fs.nodes.filterMap (fun n => entryName dir n.1)

def SimFS.readDir (dir : String) (fs : SimFS) : Except GoError (List String) :=
  match fs.nodes.lookup dir with
  | some Node.dir => .ok (fs.entries dir)
  | some (Node.file _) => .error (GoError.pathError "readdirent" dir ENOTDIR)
  | none => .error (GoError.pathError "open" dir ENOENT)

def SimFS.remove (path : String) (fs : SimFS) : Option GoError × SimFS :=
  match fs.faults.lookup path with
  | some e =>
    (some (GoError.pathError "remove" path e), if e = ENOENT then fs.erase path else fs)
  | none =>
    match fs.nodes.lookup path with
    | none => (some (GoError.pathError "remove" path ENOENT), fs)
    | some (Node.file _) => (none, fs.erase path)
    | some Node.dir =>
      if fs.entries path = [] then (none, fs.erase path)
      else (some (GoError.pathError "remove" path ENOTEMPTY), fs)

def SimFS.readFile (path : String) (fs : SimFS) : Except GoError String :=
  match fs.nodes.lookup path with
  | some (Node.file content) => .ok content
  | some Node.dir => .error (GoError.pathError "read" path EISDIR)
  | none => .error (GoError.pathError "open" path ENOENT)

def SimFS.writeFile (path data : String) (_perm : Nat) (fs : SimFS) : Option GoError × SimFS :=
  match fs.nodes.lookup (parentOf path) with
  | some Node.dir =>
    match fs.nodes.lookup path with
    | some Node.dir => (some (GoError.pathError "rename" path EISDIR), fs)
    | _ => (none, { fs.erase path with nodes := (path, Node.file data) :: (fs.erase path).nodes })
  | some (Node.file _) => (some (GoError.pathError "open" (parentOf path) ENOTDIR), fs)
  | none => (some (GoError.pathError "open" (parentOf path) ENOENT), fs)

def SimFS.chdir (dir : String) (fs : SimFS) : Option GoError × SimFS :=
  match fs.nodes.lookup dir with
  | some Node.dir => (none, { fs with cwd := dir })
  | some (Node.file _) => (some (GoError.pathError "chdir" dir ENOTDIR), fs)
  | none => (some (GoError.pathError "chdir" dir ENOENT), fs)

def SimFS.mkdirAll (path : String) (_perm : Nat) (fs : SimFS) : Option GoError × SimFS :=
  match fs.nodes.lookup path with
  | some Node.dir => (none, fs)
  | some (Node.file _) => (some (GoError.pathError "mkdir" path ENOTDIR), fs)
  | none => (none, { fs with nodes := fs.nodes ++ [(path, Node.dir)] })

def SimFS.lookPath (file : String) (fs : SimFS) : Except GoError String :=
  match fs.bins.lookup file with
  | some path => .ok path
  | none => .error (GoError.execError file
      (GoError.errorString "executable file not found in $PATH"))

def SimFS.exec (argv0 : String) (_argv _envv : List String) (fs : SimFS) : Option GoError :=
  if fs.bins.any (fun b => b.2 == argv0) then none else some (GoError.errno ENOENT)

/-- The simulated environment as a `Sys`. -/
def simSys : Sys SimFS where
  getWorkspaces := fun fs => .ok fs.wss
  userCacheDir := fun fs => .ok fs.cache
  mkdirAll := SimFS.mkdirAll
  lookPath := SimFS.lookPath
  readFile := SimFS.readFile
  chdir := SimFS.chdir
  environ := fun fs => fs.env
  exec := SimFS.exec
  getwd := fun fs => .ok fs.cwd
  writeFile := SimFS.writeFile
  remove := SimFS.remove
  readDir := SimFS.readDir

/-- A store holding the records of workspaces 1, 2 and 3; workspaces 2 and 3 are live
and workspace 2 is focused. -/
def fsDemo : SimFS where
  nodes := [("/c", Node.dir), ("/c/wswd", Node.dir), ("/home/u", Node.dir),
    ("/home/u/src", Node.dir), ("/tmp", Node.dir),
    ("/c/wswd/id-1", Node.file "/tmp"), ("/c/wswd/id-2", Node.file "/home/u"),
    ("/c/wswd/id-3", Node.file "/tmp")]
  cwd := "/home/u/src"
  cache := "/c"
  bins := [("echo", "/bin/echo")]
  env := ["HOME=/home/u"]
  wss := [⟨2, true⟩, ⟨3, false⟩]
  faults := []

def wDemo : World SimFS := ⟨fsDemo, []⟩

/-- The configuration that `run` builds on `fsDemo`. -/
def cDemo : config := ⟨"/c/wswd", ⟨2, true⟩, [⟨2, true⟩, ⟨3, false⟩]⟩

/-- The same store directory with an empty live set. -/
def cNoLive : config := ⟨"/c/wswd", ⟨2, true⟩, []⟩

/-- A store holding the record of workspace 2 and a foreign file `stray.txt`. -/
def fsStray : SimFS :=
  { fsDemo with
    nodes := [("/c", Node.dir), ("/c/wswd", Node.dir),
      ("/c/wswd/id-2", Node.file "/home/u"), ("/c/wswd/stray.txt", Node.file "x")] }

/-- A store holding the records of workspaces 1, 2, 4 and 5 in which the records of 1 and 5
cannot be removed (permission denied). -/
def fsDenied : SimFS :=
  { fsDemo with
    nodes := [("/c", Node.dir), ("/c/wswd", Node.dir),
      ("/c/wswd/id-1", Node.file "/tmp"), ("/c/wswd/id-2", Node.file "/home/u"),
      ("/c/wswd/id-4", Node.file "/tmp"), ("/c/wswd/id-5", Node.file "/tmp")]
    faults := [("/c/wswd/id-1", EACCES), ("/c/wswd/id-5", EACCES)] }

/-- A store holding the records of workspaces 1 and 2 in which the record of 1 is removed
by another process after the directory has been listed. -/
def fsRace : SimFS :=
  { fsDemo with
    nodes := [("/c", Node.dir), ("/c/wswd", Node.dir),
      ("/c/wswd/id-1", Node.file "/tmp"), ("/c/wswd/id-2", Node.file "/home/u")]
    faults := [("/c/wswd/id-1", ENOENT)] }

/-! ## Record names: decoding and injectivity -/

theorem hexVal_hexDigit (d : Nat) (h : d < 16) : hexVal (hexDigit d) = d := by
  interval_cases d <;> decide

theorem hexDigit_mem (d : Nat) (h : d < 16) : hexDigit d ∈ ldigits.take 16 := by
  interval_cases d <;> decide

theorem fmtHexLoop_append (fuel u : Nat) (buf : List Char) :
    fmtHexLoop fuel u buf = fmtHexLoop fuel u [] ++ buf := by
  induction fuel generalizing u buf with
  | zero => simp [fmtHexLoop]
  | succ n ih =>
    unfold fmtHexLoop
    split
    · rw [ih (u / 16) (hexDigit (u % 16) :: buf), ih (u / 16) [hexDigit (u % 16)]]
      simp
    · simp

theorem hexValue_append_single (cs : List Char) (c : Char) :
    hexValue (cs ++ [c]) = 16 * hexValue cs + hexVal c := by
  simp [hexValue, List.foldl_append]

/-- With a bound of at least `u`, the digits produced for `u` are hexadecimal digits, their
value is `u`, and the first one is `0` only for `u = 0`. -/
theorem fmtHexLoop_spec (fuel u : Nat) (h : u ≤ fuel) :
    hexValue (fmtHexLoop fuel u []) = u ∧
    (∀ c ∈ fmtHexLoop fuel u [], c ∈ ldigits.take 16) ∧
    (∃ c cs, fmtHexLoop fuel u [] = c :: cs ∧ c ∈ ldigits.take 16 ∧ (c = '0' → u = 0)) := by
  induction fuel generalizing u with
  | zero =>
    have hu : u = 0 := by omega
    subst hu
    refine ⟨by decide, by decide, '0', [], by decide, by decide, fun _ => rfl⟩
  | succ n ih =>
    unfold fmtHexLoop
    by_cases h16 : 16 ≤ u
    · rw [if_pos h16, fmtHexLoop_append]
      have hle : u / 16 ≤ n := by omega
      obtain ⟨hv, hmem, c, cs, hcs, hc, hc0⟩ := ih (u / 16) hle
      refine ⟨?_, ?_, ?_⟩
      · rw [hexValue_append_single, hv, hexVal_hexDigit _ (Nat.mod_lt _ (by decide))]
        omega
      · intro x hx
        rcases List.mem_append.1 hx with hx | hx
        · exact hmem x hx
        · rw [List.mem_singleton] at hx
          rw [hx]
          exact hexDigit_mem _ (Nat.mod_lt _ (by decide))
      · refine ⟨c, cs ++ [hexDigit (u % 16)], by rw [hcs]; rfl, hc, ?_⟩
        intro hc1
        have := hc0 hc1
        omega
    · rw [if_neg h16]
      have hlt : u < 16 := by omega
      refine ⟨?_, ?_, ?_⟩
      · simp [hexValue, hexVal_hexDigit u hlt]
      · intro x hx
        rw [List.mem_singleton] at hx
        rw [hx]
        exact hexDigit_mem u hlt
      · refine ⟨hexDigit u, [], rfl, hexDigit_mem u hlt, ?_⟩
        intro h0
        have := hexVal_hexDigit u hlt
        rw [h0] at this
        exact this.symm.trans (by decide)

theorem parseHex_fmtHex (v : Int) : parseHex (fmtHex v).data = v := by
  obtain ⟨hv, _, c, cs, hcs, hc, _⟩ := fmtHexLoop_spec v.natAbs v.natAbs (le_refl _)
  unfold fmtHex
  by_cases hneg : v < 0
  · simp only [hneg, if_true]
    show parseHex ('-' :: fmtHexLoop v.natAbs v.natAbs []) = v
    unfold parseHex
    simp only [hv]
    omega
  · simp only [hneg, if_false]
    show parseHex (fmtHexLoop v.natAbs v.natAbs []) = v
    have hne : c ≠ '-' := by
      intro h
      rw [h] at hc
      revert hc
      decide
    rw [hcs] at hv ⊢
    unfold parseHex
    split
    · rename_i ds heq
      simp only [List.cons.injEq] at heq
      exact absurd heq.1 hne
    · rw [hv]
      omega

theorem fmtHex_injective (a b : Int) (h : fmtHex a = fmtHex b) : a = b := by
  rw [← parseHex_fmtHex a, ← parseHex_fmtHex b, h]

theorem recordName_injective (a b : Int) (h : recordName a = recordName b) : a = b := by
  apply fmtHex_injective
  unfold recordName at h
  have hd := congrArg String.data h
  simp only [String.data_append] at hd
  exact String.ext (List.append_cancel_left hd)

/-! ## Joined errors -/

theorem errorsJoin_count (errs : List (Option GoError)) (k : Nat) :
    errs.foldl (fun n err => if err.isSome then n + 1 else n) k = k + errs.reduceOption.length := by
  induction errs generalizing k with
  | nil => simp
  | cons e es ih =>
    cases e with
    | none => simpa using ih k
    | some x =>
      simp only [List.foldl_cons, Option.isSome_some, if_true, List.reduceOption_cons_of_some,
        List.length_cons]
      rw [ih (k + 1)]
      omega

theorem errorsJoin_collect (errs : List (Option GoError)) (acc : List GoError) :
    errs.foldl (fun acc err => match err with
        | some e => acc ++ [e]
        | none => acc) acc = acc ++ errs.reduceOption := by
  induction errs generalizing acc with
  | nil => simp
  | cons e es ih =>
    cases e with
    | none => simpa using ih acc
    | some x =>
      simp only [List.foldl_cons, List.reduceOption_cons_of_some]
      rw [ih (acc ++ [x])]
      simp

theorem errorsJoin_eq (errs : List (Option GoError)) :
    errorsJoin errs =
      if errs.reduceOption.length = 0 then none
      else some (GoError.joinError errs.reduceOption) := by
  unfold errorsJoin
  simp only [errorsJoin_count, errorsJoin_collect, Nat.zero_add, List.nil_append]

theorem joinLoop_eq_go (b : String) (i : Nat) (hi : 0 < i) (errs : List GoError) :
    GoError.joinLoop b i errs = String.intercalate.go b "\n" (errs.map GoError.Error) := by
  induction errs generalizing b i with
  | nil => simp [GoError.joinLoop, String.intercalate.go]
  | cons e es ih =>
    rw [GoError.joinLoop, if_pos hi, ih _ (i + 1) (Nat.succ_pos i)]
    simp [String.intercalate.go]

theorem joinError_Error (errs : List GoError) :
    (GoError.joinError errs).Error = String.intercalate "\n" (errs.map GoError.Error) := by
  rw [GoError.Error]
  cases errs with
  | nil => simp [GoError.joinLoop, String.intercalate]
  | cons e es =>
    rw [GoError.joinLoop, if_neg (by decide), joinLoop_eq_go _ 1 (by decide)]
    simp [String.intercalate]

/-! ## The reconciliation sweep -/

theorem allocated_fold (wss : List Workspace) (acc : List String) (n : String) :
    n ∈ wss.foldl (fun (s : List String) ws => recordName ws.ID :: s) acc ↔
      n ∈ acc ∨ n ∈ liveNames wss := by
  induction wss generalizing acc with
  | nil => simp [liveNames]
  | cons ws rest ih =>
    simp only [List.foldl_cons]
    rw [ih]
    simp only [liveNames, List.map_cons, List.mem_cons]
    tauto

theorem allocated_contains (wss : List Workspace) (n : String) :
    (allocatedOf wss).Contains n = decide (n ∈ liveNames wss) := by
  have h := allocated_fold wss [] n
  simp only [List.not_mem_nil, false_or] at h
  unfold set.Contains allocatedOf makeSet set.Add
  simp only [List.foldl_nil, List.elem_eq_mem]
  exact decide_eq_decide.2 h

/-- The calls that log a list of removals given as pairs of path and result. -/
theorem removedNames_map (evs : List (String × Option GoError)) :
    removedNames (evs.map (fun e => Call.remove e.1 e.2)) = evs.map Prod.fst := by
  induction evs with
  | nil => rfl
  | cons e es ih => simp [removedNames, ih]

theorem removeResults_map (evs : List (String × Option GoError)) :
    removeResults (evs.map (fun e => Call.remove e.1 e.2)) = evs.map Prod.snd := by
  induction evs with
  | nil => rfl
  | cons e es ih => simp [removeResults, ih]

theorem cleanLoop_spec (sys : Sys σ) (dir : String) (wss : List Workspace) (des : List String)
    (empty : Bool) (errs : List (Option GoError)) (w : World σ) :
    ∃ evs : List (String × Option GoError),
      (cleanLoop sys dir (allocatedOf wss) des (empty, errs, w)).2.2.log =
        w.log ++ evs.map (fun e => Call.remove e.1 e.2) ∧
      evs.map Prod.fst = (staleEntries wss des).map (filepathJoin dir) ∧
      (cleanLoop sys dir (allocatedOf wss) des (empty, errs, w)).2.1 = errs ++ evs.map Prod.snd ∧
      (cleanLoop sys dir (allocatedOf wss) des (empty, errs, w)).1 =
        (empty && decide (staleEntries wss des = des)) := by
  induction des generalizing empty errs w with
  | nil => exact ⟨[], by simp [cleanLoop, staleEntries]⟩
  | cons n rest ih =>
    by_cases hn : n ∈ liveNames wss
    · obtain ⟨evs, h1, h2, h3, h4⟩ := ih false errs w
      refine ⟨evs, ?_, ?_, ?_, ?_⟩
      · simpa [cleanLoop, allocated_contains, hn] using h1
      · simpa [staleEntries, hn] using h2
      · simpa [cleanLoop, allocated_contains, hn] using h3
      · have hne : staleEntries wss (n :: rest) ≠ n :: rest := by
          intro h
          have hmem : n ∈ staleEntries wss (n :: rest) := by rw [h]; exact List.mem_cons_self _ _
          simp [staleEntries, hn] at hmem
        simp [cleanLoop, allocated_contains, hn, h4, hne]
    · obtain ⟨evs, h1, h2, h3, h4⟩ :=
        ih empty (errs ++ [(osRemove sys (filepathJoin dir n) w).1])
          (osRemove sys (filepathJoin dir n) w).2
      refine ⟨(filepathJoin dir n, (sys.remove (filepathJoin dir n) w.st).1) :: evs,
        ?_, ?_, ?_, ?_⟩
      · simp only [cleanLoop, allocated_contains, hn, decide_False, Bool.false_eq_true, if_false]
        rw [h1]
        simp [osRemove]
      · simpa [staleEntries, hn] using h2
      · simp only [cleanLoop, allocated_contains, hn, decide_False, Bool.false_eq_true, if_false]
        rw [h3]
        simp [osRemove]
      · simp only [cleanLoop, allocated_contains, hn, decide_False, Bool.false_eq_true, if_false]
        rw [h4]
        simp [staleEntries, hn]

theorem callsSince_of_log (w w1 : World σ) (xs : List Call) (h : w1.log = w.log ++ xs) :
    callsSince w w1 = xs := by
  unfold callsSince
  rw [h, List.drop_left]

theorem filepathJoin_injective (dir a b : String) (h : filepathJoin dir a = filepathJoin dir b) :
    a = b := by
  unfold filepathJoin at h
  have hd := congrArg String.data h
  simp only [String.data_append] at hd
  exact String.ext (List.append_cancel_left hd)

theorem filepathJoin_ne_dir (dir n : String) : filepathJoin dir n ≠ dir := by
  intro h
  have hl := congrArg String.length h
  unfold filepathJoin at hl
  simp only [String.length_append] at hl
  have : ("/" : String).length = 1 := by decide
  omega

theorem staleEntries_eq_self (wss : List Workspace) (des : List String) :
    staleEntries wss des = des ↔ ∀ n ∈ des, n ∉ liveNames wss := by
  unfold staleEntries
  rw [List.filter_eq_self]
  simp

theorem mem_staleEntries (wss : List Workspace) (des : List String) (n : String) :
    n ∈ staleEntries wss des ↔ n ∈ des ∧ n ∉ liveNames wss := by
  unfold staleEntries
  simp [List.mem_filter]

/-- What `runClean` does once the directory has been listed: it logs the listing, then one
removal per stale entry in listing order, then the removal of the directory when no listed
name is live; its result joins the results of these removals. -/
theorem runClean_spec (sys : Sys σ) (c : config) (w : World σ) (des : List String)
    (hread : sys.readDir c.dir w.st = .ok des) :
    ∃ evs : List (String × Option GoError),
      callsSince w (runClean sys c w).2 =
        Call.readDir c.dir :: evs.map (fun e => Call.remove e.1 e.2) ∧
      evs.map Prod.fst = (staleEntries c.workspaces des).map (filepathJoin c.dir) ++
        (if staleEntries c.workspaces des = des then [c.dir] else []) ∧
      (runClean sys c w).1 = errorsJoin (evs.map Prod.snd) := by
  obtain ⟨evs, h1, h2, h3, h4⟩ := cleanLoop_spec sys c.dir c.workspaces des true []
    ⟨w.st, w.log ++ [Call.readDir c.dir]⟩
  unfold runClean
  simp only [osReadDir, hread]
  generalize hloop : cleanLoop sys c.dir (allocatedOf c.workspaces) des
    (true, [], ⟨w.st, w.log ++ [Call.readDir c.dir]⟩) = res at h1 h3 h4
  obtain ⟨empty, errs, w1⟩ := res
  simp only [Bool.true_and, List.nil_append] at h1 h3 h4
  subst h4 h3
  by_cases hall : staleEntries c.workspaces des = des
  · refine ⟨evs ++ [(c.dir, (sys.remove c.dir w1.st).1)], ?_, ?_, ?_⟩
    · apply callsSince_of_log
      simp [hall, osRemove, h1]
    · simp [hall, h2]
    · simp [hall, osRemove]
  · refine ⟨evs, ?_, ?_, ?_⟩
    · apply callsSince_of_log
      simp [hall, h1]
    · simp [hall, h2]
    · simp [hall]

/-! ## Claims about `clean` -/

/-- C1: once the store directory has been listed, `runClean` attempts to remove exactly the
listed entries whose name is not the record name of a live workspace, in listing order and
(for a listing without repeated names) each once, followed by at most the removal of the
directory itself; it never attempts to remove an entry whose name is a live record name.
With the records of ids 1, 2, 3 listed and live ids 2, 3 the only removal is that of the
record of 1, and a listed entry `stray.txt` is removed whatever the live set is. -/
theorem runClean_removes_exactly_stale (sys : Sys σ) (c : config) (w : World σ)
    (des : List String) (hread : sys.readDir c.dir w.st = .ok des) :
    (∃ rest, removedNames (callsSince w (runClean sys c w).2) =
        (staleEntries c.workspaces des).map (filepathJoin c.dir) ++ rest ∧
        (rest = [] ∨ rest = [c.dir])) ∧
    (∀ n, n ∈ staleEntries c.workspaces des ↔
        n ∈ des ∧ ¬ ∃ ws ∈ c.workspaces, n = "id-" ++ fmtHex ws.ID) ∧
    (∀ n ∈ des, (∃ ws ∈ c.workspaces, n = "id-" ++ fmtHex ws.ID) →
        filepathJoin c.dir n ∉ removedNames (callsSince w (runClean sys c w).2)) ∧
    (des.Nodup → ∀ n ∈ staleEntries c.workspaces des,
        (removedNames (callsSince w (runClean sys c w).2)).count (filepathJoin c.dir n) = 1) ∧
    (des = [recordName 1, recordName 2, recordName 3] →
        c.workspaces.map (fun ws => ws.ID) = [2, 3] →
        removedNames (callsSince w (runClean sys c w).2) = [filepathJoin c.dir (recordName 1)]) ∧
    ("stray.txt" ∈ des →
        filepathJoin c.dir "stray.txt" ∈ removedNames (callsSince w (runClean sys c w).2)) := by
  obtain ⟨evs, hcalls, hnames, -⟩ := runClean_spec sys c w des hread
  have hrem : removedNames (callsSince w (runClean sys c w).2) =
      (staleEntries c.workspaces des).map (filepathJoin c.dir) ++
        (if staleEntries c.workspaces des = des then [c.dir] else []) := by
    rw [hcalls]
    show removedNames (evs.map (fun e => Call.remove e.1 e.2)) = _
    rw [removedNames_map, hnames]
  have hlive : ∀ n, n ∈ liveNames c.workspaces ↔ ∃ ws ∈ c.workspaces, n = "id-" ++ fmtHex ws.ID := by
    intro n
    simp only [liveNames, List.mem_map, recordName]
    constructor
    · rintro ⟨ws, hws, rfl⟩
      exact ⟨ws, hws, rfl⟩
    · rintro ⟨ws, hws, rfl⟩
      exact ⟨ws, hws, rfl⟩
  have hmemrem : ∀ n, filepathJoin c.dir n ∈ removedNames (callsSince w (runClean sys c w).2) ↔
      n ∈ staleEntries c.workspaces des := by
    intro n
    rw [hrem, List.mem_append]
    constructor
    · rintro (h | h)
      · obtain ⟨m, hm, hjoin⟩ := List.mem_map.1 h
        rw [← filepathJoin_injective _ _ _ hjoin]
        exact hm
      · split at h
        · rw [List.mem_singleton] at h
          exact absurd h (filepathJoin_ne_dir _ _)
        · simp at h
    · intro h
      exact Or.inl (List.mem_map_of_mem _ h)
  refine ⟨?_, ?_, ?_, ?_, ?_, ?_⟩
  · refine ⟨_, hrem, ?_⟩
    split
    · exact Or.inr rfl
    · exact Or.inl rfl
  · intro n
    rw [mem_staleEntries, hlive]
  · intro n _ hn hmem
    have := ((mem_staleEntries _ _ _).1 ((hmemrem n).1 hmem)).2
    exact this ((hlive n).2 hn)
  · intro hnd n hn
    apply List.count_eq_one_of_mem
    · rw [hrem]
      have hstale : ((staleEntries c.workspaces des).map (filepathJoin c.dir)).Nodup := by
        apply List.Nodup.map
        · intro a b hab
          exact filepathJoin_injective _ _ _ hab
        · exact List.Nodup.filter _ hnd
      split
      · rw [List.nodup_append]
        refine ⟨hstale, List.nodup_singleton _, ?_⟩
        intro x hx hx2
        rw [List.mem_singleton] at hx2
        obtain ⟨m, _, hjoin⟩ := List.mem_map.1 hx
        rw [hx2] at hjoin
        exact filepathJoin_ne_dir _ _ hjoin
      · simpa using hstale
    · exact (hmemrem n).2 hn
  · intro hdes hids
    rw [hrem]
    have hl : liveNames c.workspaces = [recordName 2, recordName 3] := by
      have : liveNames c.workspaces = (c.workspaces.map (fun ws => ws.ID)).map recordName := by
        simp [liveNames]
      rw [this, hids]
      rfl
    have hs : staleEntries c.workspaces des = [recordName 1] := by
      unfold staleEntries
      rw [hl, hdes]
      decide
    rw [hs, hdes]
    have : ¬ ([recordName 1] = [recordName 1, recordName 2, recordName 3]) := by decide
    simp [this]
  · intro hstray
    rw [hmemrem, mem_staleEntries]
    refine ⟨hstray, ?_⟩
    rw [hlive]
    rintro ⟨ws, _, heq⟩
    have hd := congrArg String.data heq
    simp only [String.data_append] at hd
    have h0 := congrArg List.head? hd
    simp at h0

theorem removed_of_spec (sys : Sys σ) (c : config) (w : World σ) (des : List String)
    (hread : sys.readDir c.dir w.st = .ok des) :
    removedNames (callsSince w (runClean sys c w).2) =
      (staleEntries c.workspaces des).map (filepathJoin c.dir) ++
        (if staleEntries c.workspaces des = des then [c.dir] else []) ∧
    (runClean sys c w).1 = errorsJoin (removeResults (callsSince w (runClean sys c w).2)) ∧
    (removeResults (callsSince w (runClean sys c w).2)).length =
      (removedNames (callsSince w (runClean sys c w).2)).length := by
  obtain ⟨evs, hcalls, hnames, hres⟩ := runClean_spec sys c w des hread
  have h1 : removedNames (callsSince w (runClean sys c w).2) = evs.map Prod.fst := by
    rw [hcalls]
    show removedNames (evs.map (fun e => Call.remove e.1 e.2)) = _
    rw [removedNames_map]
  have h2 : removeResults (callsSince w (runClean sys c w).2) = evs.map Prod.snd := by
    rw [hcalls]
    show removeResults (evs.map (fun e => Call.remove e.1 e.2)) = _
    rw [removeResults_map]
  refine ⟨by rw [h1, hnames], by rw [h2, hres], ?_⟩
  rw [h1, h2, List.length_map, List.length_map]

theorem reduceOption_eq_nil_iff (rs : List (Option GoError)) :
    rs.reduceOption = [] ↔ ∀ r ∈ rs, r = none := by
  induction rs with
  | nil => simp
  | cons r rest ih =>
    cases r with
    | none => simp [ih]
    | some e => simp

theorem errorsJoin_eq_none_iff (rs : List (Option GoError)) :
    errorsJoin rs = none ↔ ∀ r ∈ rs, r = none := by
  rw [errorsJoin_eq, ← reduceOption_eq_nil_iff, ← List.length_eq_zero]
  split <;> simp_all

/-- C2: once the store directory has been listed, `runClean` attempts to remove the
directory itself exactly when no listed entry name is in the set `allocated`, and that
removal comes after the removals of all stale entries. With an empty live set every listed
entry and then the directory are removed, and the result is success when every removal
succeeds; when some listed entry is a live record the directory is not removed. -/
theorem runClean_removes_store_dir_iff (sys : Sys σ) (c : config) (w : World σ)
    (des : List String) (hread : sys.readDir c.dir w.st = .ok des) :
    (c.dir ∈ removedNames (callsSince w (runClean sys c w).2) ↔
        ∀ n ∈ des, (allocatedOf c.workspaces).Contains n = false) ∧
    ((∀ n ∈ des, (allocatedOf c.workspaces).Contains n = false) →
        removedNames (callsSince w (runClean sys c w).2) =
          (staleEntries c.workspaces des).map (filepathJoin c.dir) ++ [c.dir]) ∧
    ((∃ n ∈ des, (allocatedOf c.workspaces).Contains n = true) →
        removedNames (callsSince w (runClean sys c w).2) =
          (staleEntries c.workspaces des).map (filepathJoin c.dir)) ∧
    (c.workspaces = [] →
        removedNames (callsSince w (runClean sys c w).2) =
          des.map (filepathJoin c.dir) ++ [c.dir] ∧
        ((∀ r ∈ removeResults (callsSince w (runClean sys c w).2), r = none) →
          (runClean sys c w).1 = none)) ∧
    ((∃ n ∈ des, n ∈ liveNames c.workspaces) →
        c.dir ∉ removedNames (callsSince w (runClean sys c w).2)) := by
  obtain ⟨hrem, hres, -⟩ := removed_of_spec sys c w des hread
  have hcond : (∀ n ∈ des, (allocatedOf c.workspaces).Contains n = false) ↔
      staleEntries c.workspaces des = des := by
    rw [staleEntries_eq_self]
    simp [allocated_contains]
  have hnotin : c.dir ∉ (staleEntries c.workspaces des).map (filepathJoin c.dir) := by
    intro h
    obtain ⟨m, _, hjoin⟩ := List.mem_map.1 h
    exact filepathJoin_ne_dir _ _ hjoin
  refine ⟨?_, ?_, ?_, ?_, ?_⟩
  · rw [hcond, hrem]
    by_cases hall : staleEntries c.workspaces des = des
    · simp [hall]
    · simp only [hall, if_false, List.append_nil, iff_false]
      exact hnotin
  · intro h
    rw [hrem, if_pos (hcond.1 h)]
  · rintro ⟨n, hn, hc⟩
    have hall : ¬ staleEntries c.workspaces des = des := by
      intro h
      have := hcond.2 h n hn
      rw [hc] at this
      exact Bool.noConfusion this
    rw [hrem, if_neg hall, List.append_nil]
  · intro hnil
    have hall : staleEntries c.workspaces des = des := by
      rw [staleEntries_eq_self, hnil]
      simp [liveNames]
    refine ⟨by rw [hrem, hall, if_pos rfl], ?_⟩
    intro hnone
    rw [hres]
    exact (errorsJoin_eq_none_iff _).2 hnone
  · rintro ⟨n, hn, hlive⟩
    have hall : ¬ staleEntries c.workspaces des = des := by
      intro h
      exact (staleEntries_eq_self _ _).1 h n hn hlive
    rw [hrem, if_neg hall, List.append_nil]
    exact hnotin

theorem intercalate_pair (a b : String) : String.intercalate "\n" [a, b] = a ++ "\n" ++ b := by
  simp [String.intercalate, String.intercalate.go]

/-- C5: once the store directory has been listed, `runClean` attempts the removal of every
stale entry whatever the results of the earlier removals; it returns success exactly when
no removal it attempted failed, and otherwise a single `joinError` that wraps the failures
in the order they occurred and whose message is their messages joined by a newline. When
exactly two removals fail, the returned error wraps both and its message is the two
messages separated by a newline. -/
theorem runClean_joins_failures (sys : Sys σ) (c : config) (w : World σ)
    (des : List String) (hread : sys.readDir c.dir w.st = .ok des) :
    (∃ rest, removedNames (callsSince w (runClean sys c w).2) =
        (staleEntries c.workspaces des).map (filepathJoin c.dir) ++ rest) ∧
    (removeResults (callsSince w (runClean sys c w).2)).length =
        (removedNames (callsSince w (runClean sys c w).2)).length ∧
    ((runClean sys c w).1 = none ↔
        ∀ r ∈ removeResults (callsSince w (runClean sys c w).2), r = none) ∧
    (removeFailures (callsSince w (runClean sys c w).2) ≠ [] →
        (runClean sys c w).1 =
          some (GoError.joinError (removeFailures (callsSince w (runClean sys c w).2)))) ∧
    (∀ fails : List GoError, (GoError.joinError fails).Unwrap = fails ∧
        (GoError.joinError fails).Error = String.intercalate "\n" (fails.map GoError.Error)) ∧
    (∀ e1 e2, removeFailures (callsSince w (runClean sys c w).2) = [e1, e2] →
        (runClean sys c w).1 = some (GoError.joinError [e1, e2]) ∧
        (GoError.joinError [e1, e2]).Error = e1.Error ++ "\n" ++ e2.Error) := by
  obtain ⟨hrem, hres, hlen⟩ := removed_of_spec sys c w des hread
  have hsome : removeFailures (callsSince w (runClean sys c w).2) ≠ [] →
      (runClean sys c w).1 =
        some (GoError.joinError (removeFailures (callsSince w (runClean sys c w).2))) := by
    intro hne
    rw [hres, errorsJoin_eq]
    have : (removeResults (callsSince w (runClean sys c w).2)).reduceOption.length ≠ 0 := by
      intro h
      exact hne (List.length_eq_zero.1 h)
    rw [if_neg this]
    rfl
  refine ⟨⟨_, hrem⟩, hlen, ?_, hsome, ?_, ?_⟩
  · rw [hres]
    exact errorsJoin_eq_none_iff _
  · intro fails
    exact ⟨rfl, joinError_Error fails⟩
  · intro e1 e2 h
    refine ⟨?_, ?_⟩
    · have := hsome (by rw [h]; simp)
      rw [this, h]
    · rw [joinError_Error]
      exact intercalate_pair _ _

/-! ## The simulated file system -/

theorem lookup_cons_ne (q k : String) (v : Node) (l : List (String × Node)) (h : q ≠ k) :
    List.lookup q ((k, v) :: l) = List.lookup q l := by
  have hb : (q == k) = false := by simpa using h
  simp [List.lookup_cons, hb]

theorem lookup_cons_self (k : String) (v : Node) (l : List (String × Node)) :
    List.lookup k ((k, v) :: l) = some v := by
  simp [List.lookup_cons]

theorem lookup_filter_self (p : String) (l : List (String × Node)) :
    List.lookup p (l.filter (fun n => n.1 != p)) = none := by
  induction l with
  | nil => rfl
  | cons a rest ih =>
    obtain ⟨k, v⟩ := a
    by_cases h : k = p
    · simp [List.filter_cons, h, ih]
    · have h2 : p ≠ k := fun e => h e.symm
      simp only [List.filter_cons, bne_iff_ne, ne_eq, h, not_false_eq_true, decide_True, if_true]
      rw [lookup_cons_ne _ _ _ _ h2, ih]

theorem lookup_filter_ne (p q : String) (hq : q ≠ p) (l : List (String × Node)) :
    List.lookup q (l.filter (fun n => n.1 != p)) = List.lookup q l := by
  induction l with
  | nil => rfl
  | cons a rest ih =>
    obtain ⟨k, v⟩ := a
    by_cases h : k = p
    · have h2 : q ≠ k := fun e => hq (e.trans h)
      rw [lookup_cons_ne _ _ _ _ h2]
      simp [List.filter_cons, h, ih]
    · simp only [List.filter_cons, bne_iff_ne, ne_eq, h, not_false_eq_true, decide_True, if_true]
      by_cases h3 : q = k
      · subst h3
        rw [lookup_cons_self, lookup_cons_self]
      · rw [lookup_cons_ne _ _ _ _ h3, lookup_cons_ne _ _ _ _ h3, ih]

/-- In the simulated file system, removing a path again after a removal that succeeded or
reported not-found reports not-found. -/
theorem simRemove_again (p : String) (fs : SimFS)
    (h : (SimFS.remove p fs).1 = none ∨ errorsIsNotExist (SimFS.remove p fs).1 = true) :
    errorsIsNotExist (SimFS.remove p (SimFS.remove p fs).2).1 = true := by
  unfold SimFS.remove at h ⊢
  cases hf : fs.faults.lookup p with
  | some e =>
    simp only [hf] at h ⊢
    have he : e = ENOENT := by
      rcases h with h | h
      · exact absurd h (by simp)
      · simpa [errorsIsNotExist, GoError.isNotExist] using h
    subst he
    simp [SimFS.erase, hf, errorsIsNotExist, GoError.isNotExist]
  | none =>
    simp only [hf] at h ⊢
    cases hn : fs.nodes.lookup p with
    | none => simp [hn, hf, errorsIsNotExist, GoError.isNotExist]
    | some node =>
      cases node with
      | file content =>
        simp [hn, SimFS.erase, hf, lookup_filter_self, errorsIsNotExist, GoError.isNotExist]
      | dir =>
        simp only [hn] at h ⊢
        by_cases hent : fs.entries p = []
        · simp [hent, SimFS.erase, hf, lookup_filter_self, errorsIsNotExist,
            GoError.isNotExist]
        · simp [hent, errorsIsNotExist, GoError.isNotExist, ENOTEMPTY, ENOENT] at h

/-- In the simulated file system, a file that was written successfully reads back. -/
theorem simWrite_read (f d : String) (perm : Nat) (fs : SimFS)
    (h : (SimFS.writeFile f d perm fs).1 = none) :
    SimFS.readFile f (SimFS.writeFile f d perm fs).2 = .ok d := by
  unfold SimFS.writeFile at h ⊢
  cases hp : fs.nodes.lookup (parentOf f) with
  | none => simp [hp] at h
  | some node =>
    cases node with
    | file content => simp [hp] at h
    | dir =>
      simp only [hp] at h ⊢
      cases hn : fs.nodes.lookup f with
      | none => simp [hn, SimFS.readFile, List.lookup_cons]
      | some node2 =>
        cases node2 with
        | file content => simp [hn, SimFS.readFile, List.lookup_cons]
        | dir => simp [hn] at h

/-! ## Claims about `unset`, `set` and `exec` -/

/-- C4: `runUnset` makes one removal, of the record file of the focused workspace. It returns
success when the removal succeeds and when it reports not-found, and returns the removal
error for any other failure. On the simulated file system: an absent record leaves the
store unchanged, a present record is removed and the other paths are kept. In an environment
where removing a path again after a success or a not-found reports success or not-found,
a second `unset` after a successful one does not fail. -/
theorem runUnset_tolerates_missing (sys : Sys σ) (c : config) (w : World σ) :
    callsSince w (runUnset sys c w).2 =
      [Call.remove (filepathJoin c.dir (recordName c.cur.ID))
        (sys.remove (filepathJoin c.dir (recordName c.cur.ID)) w.st).1] ∧
    (runUnset sys c w).2.st = (sys.remove (filepathJoin c.dir (recordName c.cur.ID)) w.st).2 ∧
    ((sys.remove (filepathJoin c.dir (recordName c.cur.ID)) w.st).1 = none →
      (runUnset sys c w).1 = none) ∧
    (∀ e, (sys.remove (filepathJoin c.dir (recordName c.cur.ID)) w.st).1 = some e →
      e.isNotExist = true → (runUnset sys c w).1 = none) ∧
    (∀ e, (sys.remove (filepathJoin c.dir (recordName c.cur.ID)) w.st).1 = some e →
      e.isNotExist = false → (runUnset sys c w).1 = some e) ∧
    (∀ (fs : SimFS) (log : List Call),
      fs.faults.lookup (filepathJoin c.dir (recordName c.cur.ID)) = none →
      fs.nodes.lookup (filepathJoin c.dir (recordName c.cur.ID)) = none →
      (runUnset simSys c ⟨fs, log⟩).1 = none ∧ (runUnset simSys c ⟨fs, log⟩).2.st = fs) ∧
    (∀ (fs : SimFS) (log : List Call) (content : String),
      fs.faults.lookup (filepathJoin c.dir (recordName c.cur.ID)) = none →
      fs.nodes.lookup (filepathJoin c.dir (recordName c.cur.ID)) = some (Node.file content) →
      (runUnset simSys c ⟨fs, log⟩).1 = none ∧
      (runUnset simSys c ⟨fs, log⟩).2.st.nodes.lookup
        (filepathJoin c.dir (recordName c.cur.ID)) = none ∧
      ∀ q, q ≠ filepathJoin c.dir (recordName c.cur.ID) →
        (runUnset simSys c ⟨fs, log⟩).2.st.nodes.lookup q = fs.nodes.lookup q) ∧
    ((∀ p st, (sys.remove p st).1 = none ∨ errorsIsNotExist (sys.remove p st).1 = true →
        (sys.remove p (sys.remove p st).2).1 = none ∨
          errorsIsNotExist (sys.remove p (sys.remove p st).2).1 = true) →
      (runUnset sys c w).1 = none → (runUnset sys c (runUnset sys c w).2).1 = none) := by
  have hres : ∀ (s : Sys σ) (v : World σ), (runUnset s c v).1 = none ↔
      ((s.remove (filepathJoin c.dir (recordName c.cur.ID)) v.st).1 = none ∨
        errorsIsNotExist (s.remove (filepathJoin c.dir (recordName c.cur.ID)) v.st).1 = true) := by
    intro s v
    simp only [runUnset, osRemove]
    by_cases hne : errorsIsNotExist (s.remove (filepathJoin c.dir (recordName c.cur.ID)) v.st).1
        = true
    · simp [hne]
    · simp [hne]
  refine ⟨?_, rfl, ?_, ?_, ?_, ?_, ?_, ?_⟩
  · apply callsSince_of_log
    rfl
  · intro h
    exact (hres sys w).2 (Or.inl h)
  · intro e he hne
    refine (hres sys w).2 (Or.inr ?_)
    rw [he]
    exact hne
  · intro e he hne
    simp only [runUnset, osRemove, he, errorsIsNotExist, hne]
    rfl
  · intro fs log hf hn
    simp [runUnset, osRemove, simSys, SimFS.remove, hf, hn, errorsIsNotExist,
      GoError.isNotExist, ENOENT]
  · intro fs log content hf hn
    refine ⟨?_, ?_, ?_⟩
    · simp [runUnset, osRemove, simSys, SimFS.remove, hf, hn, errorsIsNotExist]
    · simp [runUnset, osRemove, simSys, SimFS.remove, hf, hn, SimFS.erase, lookup_filter_self]
    · intro q hq
      simp [runUnset, osRemove, simSys, SimFS.remove, hf, hn, SimFS.erase,
        lookup_filter_ne _ _ hq]
  · intro hlaw h1
    rw [hres] at h1 ⊢
    exact hlaw _ _ h1

/-- C3: when `runSet` succeeds with current directory `p`, it has written exactly `p`, with
nothing added, to the file `id-<hex id>` of the store directory; the dispatch path then reads
the same file and, in an environment where a successfully written file reads back, changes
directory to exactly `p`. -/
theorem set_then_dispatch_roundtrip (sys : Sys σ) (c : config) (w : World σ)
    (p prog cmd : String) (rest : List String)
    (hwd : sys.getwd w.st = .ok p)
    (hset : (runSet sys c w).1 = none)
    (hlaw : ∀ f d perm st, (sys.writeFile f d perm st).1 = none →
      sys.readFile f (sys.writeFile f d perm st).2 = .ok d)
    (hlook : sys.lookPath prog (runSet sys c w).2.st = .ok cmd) :
    callsSince w (runSet sys c w).2 =
      [Call.getwd, Call.writeFile (filepathJoin c.dir ("id-" ++ fmtHex c.cur.ID)) p 0o600] ∧
    sys.readFile (filepathJoin c.dir ("id-" ++ fmtHex c.cur.ID)) (runSet sys c w).2.st = .ok p ∧
    (callsSince (runSet sys c w).2 (runExec sys c (prog :: rest) (runSet sys c w).2).2).take 3 =
      [Call.lookPath prog, Call.readFile (filepathJoin c.dir ("id-" ++ fmtHex c.cur.ID)),
        Call.chdir p] := by
  have hrun : runSet sys c w =
      renameioWriteFile sys (filepathJoin c.dir (recordName c.cur.ID)) p 0o600
        ⟨w.st, w.log ++ [Call.getwd]⟩ := by
    simp only [runSet, osGetwd, hwd]
  have hw : (sys.writeFile (filepathJoin c.dir (recordName c.cur.ID)) p 0o600 w.st).1 = none := by
    rw [hrun] at hset
    exact hset
  have hst : (runSet sys c w).2.st =
      (sys.writeFile (filepathJoin c.dir (recordName c.cur.ID)) p 0o600 w.st).2 := by
    rw [hrun]
    rfl
  have hread : sys.readFile (filepathJoin c.dir (recordName c.cur.ID)) (runSet sys c w).2.st
      = .ok p := by
    rw [hst]
    exact hlaw _ _ _ _ hw
  refine ⟨?_, hread, ?_⟩
  · apply callsSince_of_log
    rw [hrun]
    simp [renameioWriteFile, recordName]
  · generalize (runSet sys c w).2 = w1 at hlook hread ⊢
    have hlog : ∃ tail, (runExec sys c (prog :: rest) w1).2.log =
        w1.log ++ ([Call.lookPath prog,
          Call.readFile (filepathJoin c.dir (recordName c.cur.ID)), Call.chdir p] ++ tail) := by
      simp only [runExec, execLookPath, hlook, osReadFile, hread, osChdir]
      cases hch : (sys.chdir p w1.st).1 with
      | some e => exact ⟨[], by simp [hch]⟩
      | none =>
        simp only [hch, unixExec]
        cases sys.exec cmd rest (sys.environ (sys.chdir p w1.st).2) (sys.chdir p w1.st).2 with
        | none =>
          exact ⟨[Call.exec cmd rest (sys.environ (sys.chdir p w1.st).2)], by simp⟩
        | some e =>
          exact ⟨[Call.exec cmd rest (sys.environ (sys.chdir p w1.st).2)], by simp⟩
    obtain ⟨tail, htail⟩ := hlog
    rw [callsSince_of_log _ _ _ htail]
    rfl

/-- The exec path of `run`: after the workspaces have been fetched, a focused one found and
the store directory determined, `run` continues with `runExec` on the remaining arguments. -/
theorem run_exec_eq (sys : Sys σ) (argv0 : String) (args : List String) (w : World σ)
    (wss : List Workspace) (cur : Workspace) (ucd : String) (st1 : σ)
    (hws : sys.getWorkspaces w.st = .ok wss) (hfoc : focusedOf wss = some cur)
    (hucd : sys.userCacheDir w.st = .ok ucd)
    (hmk : sys.mkdirAll (filepathJoin ucd "wswd") 0o700 w.st = (none, st1)) :
    run sys argv0 ("exec" :: args) w =
      runExec sys ⟨filepathJoin ucd "wswd", cur, wss⟩ args
        ⟨st1, w.log ++ [Call.getWorkspaces, Call.userCacheDir,
          Call.mkdirAll (filepathJoin ucd "wswd") 0o700]⟩ := by
  simp [run, i3GetWorkspaces, hws, hfoc, cfgDir, osUserCacheDir, hucd, osMkdirAll, hmk]

/-- C7: in the exec path of `run` (workspaces fetched, a focused workspace found, store
directory determined). If the program is not found, `run` returns the lookup error and
makes no further call, so no record read and no directory change. If it is found and the
record read reports not-found, no directory change is made and the program is executed. If
the record is read, the directory is changed to the stored path and the program is executed
after that; when the directory change fails its error is returned and nothing is executed.
A record read failure other than not-found is returned and nothing is executed. -/
theorem run_exec_order (sys : Sys σ) (argv0 prog : String) (rest : List String) (w : World σ)
    (wss : List Workspace) (cur : Workspace) (ucd : String) (st1 : σ)
    (hws : sys.getWorkspaces w.st = .ok wss) (hfoc : focusedOf wss = some cur)
    (hucd : sys.userCacheDir w.st = .ok ucd)
    (hmk : sys.mkdirAll (filepathJoin ucd "wswd") 0o700 w.st = (none, st1)) :
    (∀ e, sys.lookPath prog st1 = .error e →
      (run sys argv0 ("exec" :: prog :: rest) w).1 = Outcome.returned (some e) ∧
      callsSince w (run sys argv0 ("exec" :: prog :: rest) w).2 =
        [Call.getWorkspaces, Call.userCacheDir, Call.mkdirAll (filepathJoin ucd "wswd") 0o700,
          Call.lookPath prog]) ∧
    (∀ cmd e, sys.lookPath prog st1 = .ok cmd →
      sys.readFile (filepathJoin (filepathJoin ucd "wswd") (recordName cur.ID)) st1 = .error e →
      e.isNotExist = true →
      callsSince w (run sys argv0 ("exec" :: prog :: rest) w).2 =
        [Call.getWorkspaces, Call.userCacheDir, Call.mkdirAll (filepathJoin ucd "wswd") 0o700,
          Call.lookPath prog,
          Call.readFile (filepathJoin (filepathJoin ucd "wswd") (recordName cur.ID)),
          Call.exec cmd rest (sys.environ st1)] ∧
      (sys.exec cmd rest (sys.environ st1) st1 = none →
        (run sys argv0 ("exec" :: prog :: rest) w).1 =
          Outcome.replaced cmd rest (sys.environ st1))) ∧
    (∀ cmd buf st2, sys.lookPath prog st1 = .ok cmd →
      sys.readFile (filepathJoin (filepathJoin ucd "wswd") (recordName cur.ID)) st1 = .ok buf →
      sys.chdir buf st1 = (none, st2) →
      callsSince w (run sys argv0 ("exec" :: prog :: rest) w).2 =
        [Call.getWorkspaces, Call.userCacheDir, Call.mkdirAll (filepathJoin ucd "wswd") 0o700,
          Call.lookPath prog,
          Call.readFile (filepathJoin (filepathJoin ucd "wswd") (recordName cur.ID)),
          Call.chdir buf, Call.exec cmd rest (sys.environ st2)] ∧
      (sys.exec cmd rest (sys.environ st2) st2 = none →
        (run sys argv0 ("exec" :: prog :: rest) w).1 =
          Outcome.replaced cmd rest (sys.environ st2))) ∧
    (∀ cmd buf e st2, sys.lookPath prog st1 = .ok cmd →
      sys.readFile (filepathJoin (filepathJoin ucd "wswd") (recordName cur.ID)) st1 = .ok buf →
      sys.chdir buf st1 = (some e, st2) →
      (run sys argv0 ("exec" :: prog :: rest) w).1 = Outcome.returned (some e) ∧
      callsSince w (run sys argv0 ("exec" :: prog :: rest) w).2 =
        [Call.getWorkspaces, Call.userCacheDir, Call.mkdirAll (filepathJoin ucd "wswd") 0o700,
          Call.lookPath prog,
          Call.readFile (filepathJoin (filepathJoin ucd "wswd") (recordName cur.ID)),
          Call.chdir buf]) ∧
    (∀ cmd e, sys.lookPath prog st1 = .ok cmd →
      sys.readFile (filepathJoin (filepathJoin ucd "wswd") (recordName cur.ID)) st1 = .error e →
      e.isNotExist = false →
      (run sys argv0 ("exec" :: prog :: rest) w).1 = Outcome.returned (some e) ∧
      callsSince w (run sys argv0 ("exec" :: prog :: rest) w).2 =
        [Call.getWorkspaces, Call.userCacheDir, Call.mkdirAll (filepathJoin ucd "wswd") 0o700,
          Call.lookPath prog,
          Call.readFile (filepathJoin (filepathJoin ucd "wswd") (recordName cur.ID))]) := by
  rw [run_exec_eq sys argv0 (prog :: rest) w wss cur ucd st1 hws hfoc hucd hmk]
  refine ⟨?_, ?_, ?_, ?_, ?_⟩
  · intro e hl
    refine ⟨by simp [runExec, execLookPath, hl], ?_⟩
    apply callsSince_of_log
    simp [runExec, execLookPath, hl]
  · intro cmd e hl hr hne
    refine ⟨?_, ?_⟩
    · apply callsSince_of_log
      simp only [runExec, execLookPath, hl, osReadFile, hr, hne, unixExec]
      cases sys.exec cmd rest (sys.environ st1) st1 <;> simp
    · intro hex
      simp [runExec, execLookPath, hl, osReadFile, hr, hne, unixExec, hex]
  · intro cmd buf st2 hl hr hc
    refine ⟨?_, ?_⟩
    · apply callsSince_of_log
      simp only [runExec, execLookPath, hl, osReadFile, hr, osChdir, hc, unixExec]
      cases sys.exec cmd rest (sys.environ st2) st2 <;> simp
    · intro hex
      simp [runExec, execLookPath, hl, osReadFile, hr, osChdir, hc, unixExec, hex]
  · intro cmd buf e st2 hl hr hc
    refine ⟨by simp [runExec, execLookPath, hl, osReadFile, hr, osChdir, hc], ?_⟩
    apply callsSince_of_log
    simp [runExec, execLookPath, hl, osReadFile, hr, osChdir, hc]
  · intro cmd e hl hr hne
    refine ⟨by simp [runExec, execLookPath, hl, osReadFile, hr, hne], ?_⟩
    apply callsSince_of_log
    simp [runExec, execLookPath, hl, osReadFile, hr, hne]

/-! ## Record naming -/

/-- C9: the record file name is the same function `recordName` of the workspace id in
`runSet`, `runUnset`, the dispatch path and `runClean`; it is `id-` followed by the
hexadecimal digits of the id (lowercase, most significant first, no leading zero except for
the id 0, after a `-` sign for a negative id), and it is injective. -/
theorem recordName_scheme (sys : Sys σ) (c : config) (w : World σ) :
    (∀ w1 w2 : Int, recordName w1 = recordName w2 → w1 = w2) ∧
    (∀ id : Int, ∃ ds : List Char,
      recordName id = "id-" ++ String.mk ((if id < 0 then ['-'] else []) ++ ds) ∧
      (∀ d ∈ ds, d ∈ "0123456789abcdef".data) ∧
      hexValue ds = id.natAbs ∧
      (∃ d rest, ds = d :: rest ∧ (d = '0' → id = 0))) ∧
    (∀ wd, sys.getwd w.st = .ok wd → callsSince w (runSet sys c w).2 =
      [Call.getwd, Call.writeFile (filepathJoin c.dir (recordName c.cur.ID)) wd 0o600]) ∧
    removedNames (callsSince w (runUnset sys c w).2) =
      [filepathJoin c.dir (recordName c.cur.ID)] ∧
    (∀ prog rest cmd, sys.lookPath prog w.st = .ok cmd →
      (callsSince w (runExec sys c (prog :: rest) w).2).take 2 =
        [Call.lookPath prog, Call.readFile (filepathJoin c.dir (recordName c.cur.ID))]) ∧
    (∀ n, (allocatedOf c.workspaces).Contains n = true ↔
      ∃ ws ∈ c.workspaces, n = recordName ws.ID) := by
  refine ⟨recordName_injective, ?_, ?_, ?_, ?_, ?_⟩
  · intro id
    obtain ⟨hv, hmem, d, rest, hds, -, hd0⟩ :=
      fmtHexLoop_spec id.natAbs id.natAbs (le_refl _)
    refine ⟨fmtHexLoop id.natAbs id.natAbs [], ?_, hmem, hv, d, rest, hds, ?_⟩
    · unfold recordName fmtHex
      by_cases hneg : id < 0 <;> simp [hneg]
    · intro h
      exact Int.natAbs_eq_zero.1 (hd0 h)
  · intro wd hwd
    apply callsSince_of_log
    simp [runSet, osGetwd, hwd, renameioWriteFile]
  · rw [callsSince_of_log w (runUnset sys c w).2
      [Call.remove (filepathJoin c.dir (recordName c.cur.ID))
        (sys.remove (filepathJoin c.dir (recordName c.cur.ID)) w.st).1] rfl]
    rfl
  · intro prog rest cmd hl
    have hlog : ∃ tail, (runExec sys c (prog :: rest) w).2.log = w.log ++
        ([Call.lookPath prog, Call.readFile (filepathJoin c.dir (recordName c.cur.ID))]
          ++ tail) := by
      simp only [runExec, execLookPath, hl, osReadFile]
      cases sys.readFile (filepathJoin c.dir (recordName c.cur.ID)) w.st with
      | error e =>
        by_cases hne : e.isNotExist = true
        · simp only [hne, Bool.not_true, Bool.false_eq_true, if_false, unixExec]
          cases sys.exec cmd rest (sys.environ w.st) w.st with
          | none => exact ⟨[Call.exec cmd rest (sys.environ w.st)], by simp⟩
          | some e2 => exact ⟨[Call.exec cmd rest (sys.environ w.st)], by simp⟩
        · exact ⟨[], by simp [hne]⟩
      | ok buf =>
        simp only [osChdir]
        cases hch : (sys.chdir buf w.st).1 with
        | some e => exact ⟨[Call.chdir buf], by simp [hch]⟩
        | none =>
          simp only [hch, unixExec]
          cases sys.exec cmd rest (sys.environ (sys.chdir buf w.st).2) (sys.chdir buf w.st).2 with
          | none =>
            exact ⟨[Call.chdir buf,
              Call.exec cmd rest (sys.environ (sys.chdir buf w.st).2)], by simp⟩
          | some e2 =>
            exact ⟨[Call.chdir buf,
              Call.exec cmd rest (sys.environ (sys.chdir buf w.st).2)], by simp⟩
    obtain ⟨tail, htail⟩ := hlog
    rw [callsSince_of_log _ _ _ htail]
    rfl
  · intro n
    rw [allocated_contains]
    simp only [decide_eq_true_eq, liveNames, List.mem_map]
    constructor
    · rintro ⟨ws, hws, rfl⟩
      exact ⟨ws, hws, rfl⟩
    · rintro ⟨ws, hws, rfl⟩
      exact ⟨ws, hws, rfl⟩

/-! ## Evaluations on the simulated environment -/

/-- C6: evaluation of `runClean` when the only failing removal reports not-found (the stale
record of workspace 1 is listed and then vanishes before its removal): every failure is a
not-found failure, yet `runClean` returns a `joinError` holding that failure, not success. -/
theorem runClean_reports_not_found :
    simSys.readDir cDemo.dir fsRace = .ok ["id-1", "id-2"] ∧
    removedNames (callsSince ⟨fsRace, []⟩ (runClean simSys cDemo ⟨fsRace, []⟩).2) =
      ["/c/wswd/id-1"] ∧
    (∀ e ∈ removeFailures (callsSince ⟨fsRace, []⟩ (runClean simSys cDemo ⟨fsRace, []⟩).2),
      e.isNotExist = true) ∧
    (runClean simSys cDemo ⟨fsRace, []⟩).1 =
      some (GoError.joinError [GoError.pathError "remove" "/c/wswd/id-1" ENOENT]) ∧
    (runClean simSys cDemo ⟨fsRace, []⟩).1 ≠ none ∧
    (GoError.joinError [GoError.pathError "remove" "/c/wswd/id-1" ENOENT]).Error =
      "remove /c/wswd/id-1: no such file or directory" ∧
    (runUnset simSys ⟨"/c/wswd", ⟨1, true⟩, [⟨1, true⟩]⟩ ⟨fsRace, []⟩).1 = none := by
  refine ⟨rfl, rfl, ?_, rfl, ?_, by decide, rfl⟩
  · intro e he
    have hf : removeFailures (callsSince ⟨fsRace, []⟩ (runClean simSys cDemo ⟨fsRace, []⟩).2) =
        [GoError.pathError "remove" "/c/wswd/id-1" ENOENT] := rfl
    rw [hf, List.mem_singleton] at he
    rw [he]
    rfl
  · intro h
    have h2 : (runClean simSys cDemo ⟨fsRace, []⟩).1 =
      some (GoError.joinError [GoError.pathError "remove" "/c/wswd/id-1" ENOENT]) := rfl
    rw [h2] at h
    exact Option.noConfusion h

/-- C8: evaluation of `run` on `exec echo hello`: the image executed is the resolved path
`/bin/echo` and the environment is the current one, but the argument vector handed to the
program is `hello` alone; it is not the program name followed by the arguments. -/
theorem run_exec_drops_program_name :
    (run simSys "wswd" ["exec", "echo", "hello"] wDemo).1 =
      Outcome.replaced "/bin/echo" ["hello"] ["HOME=/home/u"] ∧
    (run simSys "wswd" ["exec", "echo", "hello"] wDemo).1 ≠
      Outcome.replaced "/bin/echo" ["echo", "hello"] ["HOME=/home/u"] ∧
    (run simSys "wswd" ["exec", "echo"] wDemo).1 =
      Outcome.replaced "/bin/echo" [] ["HOME=/home/u"] := by
  refine ⟨rfl, ?_, rfl⟩
  intro h
  have h2 : (run simSys "wswd" ["exec", "echo", "hello"] wDemo).1 =
      Outcome.replaced "/bin/echo" ["hello"] ["HOME=/home/u"] := rfl
  rw [h2] at h
  simp at h

/-! ## Instances of the general statements -/

/-- Instance on the simulated store: with the records of 1, 2, 3 and live ids 2, 3 only the
record of 1 is removed; with a foreign file `stray.txt` in the store, that file is removed. -/
theorem runClean_removes_exactly_stale_witness :
    simSys.readDir cDemo.dir wDemo.st = .ok [recordName 1, recordName 2, recordName 3] ∧
    removedNames (callsSince wDemo (runClean simSys cDemo wDemo).2) =
      [filepathJoin cDemo.dir (recordName 1)] ∧
    (runClean simSys cDemo wDemo).2.st.nodes.map Prod.fst =
      ["/c", "/c/wswd", "/home/u", "/home/u/src", "/tmp", "/c/wswd/id-2", "/c/wswd/id-3"] ∧
    filepathJoin cDemo.dir "stray.txt" ∈
      removedNames (callsSince ⟨fsStray, []⟩ (runClean simSys cDemo ⟨fsStray, []⟩).2) ∧
    (runClean simSys cDemo ⟨fsStray, []⟩).2.st.nodes.map Prod.fst =
      ["/c", "/c/wswd", "/c/wswd/id-2"] :=
  ⟨rfl,
   (runClean_removes_exactly_stale simSys cDemo wDemo
      [recordName 1, recordName 2, recordName 3] rfl).2.2.2.2.1 rfl rfl,
   by decide,
   (runClean_removes_exactly_stale simSys cDemo ⟨fsStray, []⟩
      ["id-2", "stray.txt"] rfl).2.2.2.2.2 (by decide),
   by decide⟩

/-- Instance on the simulated store: with an empty live set the three records and then the
store directory are removed and the result is success; with live ids 2, 3 the directory
is not removed. -/
theorem runClean_removes_store_dir_iff_witness :
    simSys.readDir cNoLive.dir wDemo.st = .ok ["id-1", "id-2", "id-3"] ∧
    removedNames (callsSince wDemo (runClean simSys cNoLive wDemo).2) =
      ["/c/wswd/id-1", "/c/wswd/id-2", "/c/wswd/id-3", "/c/wswd"] ∧
    (runClean simSys cNoLive wDemo).1 = none ∧
    (runClean simSys cNoLive wDemo).2.st.nodes.map Prod.fst =
      ["/c", "/home/u", "/home/u/src", "/tmp"] ∧
    "/c/wswd" ∉ removedNames (callsSince wDemo (runClean simSys cDemo wDemo).2) := by
  have h := runClean_removes_store_dir_iff simSys cNoLive wDemo ["id-1", "id-2", "id-3"] rfl
  have h2 := runClean_removes_store_dir_iff simSys cDemo wDemo ["id-1", "id-2", "id-3"] rfl
  have hr : removeResults (callsSince wDemo (runClean simSys cNoLive wDemo).2) =
      [none, none, none, none] := rfl
  refine ⟨rfl, (h.2.2.2.1 rfl).1, (h.2.2.2.1 rfl).2 ?_, by decide, ?_⟩
  · intro r hmem
    rw [hr] at hmem
    simpa using hmem
  · exact h2.2.2.2.2 ⟨"id-2", by decide, by decide⟩

/-- Instance on the simulated store: two of the three deletions are denied, the third is
carried out, and the result joins the two failures. -/
theorem runClean_joins_failures_witness :
    simSys.readDir cDemo.dir fsDenied = .ok ["id-1", "id-2", "id-4", "id-5"] ∧
    removedNames (callsSince ⟨fsDenied, []⟩ (runClean simSys cDemo ⟨fsDenied, []⟩).2) =
      ["/c/wswd/id-1", "/c/wswd/id-4", "/c/wswd/id-5"] ∧
    (runClean simSys cDemo ⟨fsDenied, []⟩).1 =
      some (GoError.joinError [GoError.pathError "remove" "/c/wswd/id-1" EACCES,
        GoError.pathError "remove" "/c/wswd/id-5" EACCES]) ∧
    (GoError.joinError [GoError.pathError "remove" "/c/wswd/id-1" EACCES,
        GoError.pathError "remove" "/c/wswd/id-5" EACCES]).Error =
      "remove /c/wswd/id-1: permission denied\nremove /c/wswd/id-5: permission denied" ∧
    (runClean simSys cDemo ⟨fsDenied, []⟩).2.st.nodes.map Prod.fst =
      ["/c", "/c/wswd", "/c/wswd/id-1", "/c/wswd/id-2", "/c/wswd/id-5"] := by
  have h := runClean_joins_failures simSys cDemo ⟨fsDenied, []⟩
    ["id-1", "id-2", "id-4", "id-5"] rfl
  have h2 := h.2.2.2.2.2 (GoError.pathError "remove" "/c/wswd/id-1" EACCES)
    (GoError.pathError "remove" "/c/wswd/id-5" EACCES) rfl
  exact ⟨rfl, by decide, h2.1, by decide, by decide⟩

/-- Instance on the simulated store: `unset` removes the record of the focused workspace 2,
and a second `unset` right after it succeeds as well. -/
theorem runUnset_tolerates_missing_witness :
    (runUnset simSys cDemo wDemo).1 = none ∧
    (runUnset simSys cDemo wDemo).2.st.nodes.map Prod.fst =
      ["/c", "/c/wswd", "/home/u", "/home/u/src", "/tmp", "/c/wswd/id-1", "/c/wswd/id-3"] ∧
    (runUnset simSys cDemo (runUnset simSys cDemo wDemo).2).1 = none := by
  have h := runUnset_tolerates_missing simSys cDemo wDemo
  exact ⟨h.2.2.1 rfl, by decide,
    h.2.2.2.2.2.2.2 (fun p st hp => Or.inr (simRemove_again p st hp)) (h.2.2.1 rfl)⟩

/-- Instance on the simulated store: `set` in `/home/u/src`, then the dispatch path changes
directory to `/home/u/src`. -/
theorem set_then_dispatch_roundtrip_witness :
    simSys.getwd wDemo.st = .ok "/home/u/src" ∧
    (runSet simSys cDemo wDemo).1 = none ∧
    callsSince wDemo (runSet simSys cDemo wDemo).2 =
      [Call.getwd, Call.writeFile "/c/wswd/id-2" "/home/u/src" 0o600] ∧
    (callsSince (runSet simSys cDemo wDemo).2
        (runExec simSys cDemo ["echo", "hello"] (runSet simSys cDemo wDemo).2).2).take 3 =
      [Call.lookPath "echo", Call.readFile "/c/wswd/id-2", Call.chdir "/home/u/src"] := by
  have h := set_then_dispatch_roundtrip simSys cDemo wDemo "/home/u/src" "echo" "/bin/echo"
    ["hello"] rfl rfl (fun f d perm st hw => simWrite_read f d perm st hw) rfl
  exact ⟨rfl, rfl, h.1, h.2.2⟩

/-- Instance on the simulated store: the calls of `run` for `exec echo hello`, and for a
program that is not on the search path. -/
theorem run_exec_order_witness :
    simSys.lookPath "echo" fsDemo = .ok "/bin/echo" ∧
    callsSince wDemo (run simSys "wswd" ["exec", "echo", "hello"] wDemo).2 =
      [Call.getWorkspaces, Call.userCacheDir, Call.mkdirAll "/c/wswd" 0o700,
        Call.lookPath "echo", Call.readFile "/c/wswd/id-2", Call.chdir "/home/u",
        Call.exec "/bin/echo" ["hello"] ["HOME=/home/u"]] ∧
    (run simSys "wswd" ["exec", "nosuch"] wDemo).1 =
      Outcome.returned (some (GoError.execError "nosuch"
        (GoError.errorString "executable file not found in $PATH"))) ∧
    callsSince wDemo (run simSys "wswd" ["exec", "nosuch"] wDemo).2 =
      [Call.getWorkspaces, Call.userCacheDir, Call.mkdirAll "/c/wswd" 0o700,
        Call.lookPath "nosuch"] := by
  have h := run_exec_order simSys "wswd" "echo" ["hello"] wDemo fsDemo.wss ⟨2, true⟩ "/c" fsDemo
    rfl rfl rfl rfl
  have h2 := run_exec_order simSys "wswd" "nosuch" [] wDemo fsDemo.wss ⟨2, true⟩ "/c" fsDemo
    rfl rfl rfl rfl
  exact ⟨rfl,
    (h.2.2.1 "/bin/echo" "/home/u" { fsDemo with cwd := "/home/u" } rfl rfl rfl).1,
    (h2.1 _ rfl).1, (h2.1 _ rfl).2⟩

/-- Instances of the record naming scheme. -/
theorem recordName_scheme_witness :
    recordName 255 = "id-ff" ∧ recordName 0 = "id-0" ∧ recordName 1 ≠ recordName 2 ∧
    removedNames (callsSince wDemo (runUnset simSys cDemo wDemo).2) = ["/c/wswd/id-2"] :=
  ⟨by decide, by decide,
   fun h => absurd ((recordName_scheme simSys cDemo wDemo).1 1 2 h) (by decide),
   (recordName_scheme simSys cDemo wDemo).2.2.2.1⟩

end Wswd
